import Mathlib

/-!
Shallow embedding of the Webull Realtime Monitor's trade-reconciliation core
(`webull_realtime_log_parser.py`, `webull_realtime_analytics.py`,
`webull_realtime_common.py`), together with theorems settling the frozen
claims about it.

Modelling conventions:
* Quantities, prices, commissions and money amounts are rationals (the source
  uses Python floats; the inputs exercised here are exactly representable).
* Timestamps (the source's `DateTimeObj` values) are rationals counting
  seconds; `truncate_to_minute` becomes flooring to a multiple of 60,
  matching the successful-parse path of the source's string truncation.
* Python dicts keyed by strings are association lists with
  replace-or-append insertion and first-match lookup, preserving the
  source's key-collision and iteration-order behaviour.
* `numpy`'s square root (used only inside Sharpe/Sortino/std fields) is not
  rational-valued, so `calculate_advanced_metrics` takes the square-root
  function as an explicit parameter; every verified statement about the
  metrics holds for all choices of that parameter.
-/

namespace Webull

/-- One execution (fill) as produced by `process_trade`: the trade dict of
`webull_realtime_log_parser.py` lines 461-477, with `DateTimeObj` modelled
as rational seconds in `time`. -/
structure Exec where
  symbol : String
  side : String
  quantity : ℚ
  price : ℚ
  commission : ℚ
  time : ℚ
  orderId : String
  exchange : String
  date : String
deriving DecidableEq, Repr

/-- One matched round trip: the pair dict built by `create_trade_pair`
(`webull_realtime_log_parser.py` lines 628-648). -/
structure TradePair where
  symbol : String
  quantity : ℚ
  buyPrice : ℚ
  sellPrice : ℚ
  buyTime : ℚ
  sellTime : ℚ
  buyOrderId : String
  sellOrderId : String
  buyCost : ℚ
  sellProceeds : ℚ
  buyCommission : ℚ
  sellCommission : ℚ
  pnl : ℚ
  pnlPercent : ℚ
  totalCost : ℚ
  durationMinutes : ℚ
  result : String
  exchange : String
  date : String
deriving DecidableEq, Repr

/-- Sum of a list of rationals. -/
def qsum (xs : List ℚ) : ℚ := xs.foldl (· + ·) 0

/-- Upper-casing of a side string, Python's `str.upper()` (`Side.str.upper()
== 'BUY'` in the source), written over the character list so that it
evaluates inside the kernel. -/
def toUpperStr (s : String) : String := String.mk (s.data.map Char.toUpper)

/-- First-occurrence deduplication, as `pandas.Series.unique` used at
`df['Symbol'].unique()`. -/
def uniqueFirst {α : Type} [DecidableEq α] (l : List α) : List α :=
  l.foldl (fun acc a => if a ∈ acc then acc else acc ++ [a]) []

/-- Insert into a list sorted ascending by `key` (stable). Models
`DataFrame.sort_values`. -/
def insertByKey {α : Type} (key : α → ℚ) (e : α) : List α → List α
  | [] => [e]
  | x :: xs => if key e ≤ key x then e :: x :: xs else x :: insertByKey key e xs

/-- Insertion sort ascending by `key`. Models `DataFrame.sort_values`. -/
def sortByKey {α : Type} (key : α → ℚ) : List α → List α
  | [] => []
  | x :: xs => insertByKey key x (sortByKey key xs)

/-- Association-list lookup (Python dict read). -/
def dlookup {κ α : Type} [DecidableEq κ] (k : κ) : List (κ × α) → Option α
  | [] => none
  | (k', v) :: rest => if k' = k then some v else dlookup k rest

/-- Association-list insert with replace-on-existing-key (Python dict write). -/
def dinsert {κ α : Type} [DecidableEq κ] (k : κ) (v : α) : List (κ × α) → List (κ × α)
  | [] => [(k, v)]
  | (k', v') :: rest => if k' = k then (k, v) :: rest else (k', v') :: dinsert k v rest

/-- Embedding of `create_trade_pair` (`webull_realtime_log_parser.py`
lines 592-648, happy path): P&L, percent, duration and classification from a
buy and a sell execution. -/
def create_trade_pair (buy sell : Exec) : TradePair :=
  let buy_cost := buy.quantity * buy.price
  let sell_proceeds := sell.quantity * sell.price
  let total_cost := buy_cost + buy.commission
  let total_proceeds := sell_proceeds - sell.commission
  let pnl := total_proceeds - total_cost
  let pnl_percent := if 0 < total_cost then pnl / total_cost * 100 else 0
  { symbol := buy.symbol
    quantity := buy.quantity
    buyPrice := buy.price
    sellPrice := sell.price
    buyTime := buy.time
    sellTime := sell.time
    buyOrderId := buy.orderId
    sellOrderId := sell.orderId
    buyCost := buy_cost
    sellProceeds := sell_proceeds
    buyCommission := buy.commission
    sellCommission := sell.commission
    pnl := pnl
    pnlPercent := pnl_percent
    totalCost := total_cost
    durationMinutes := (sell.time - buy.time) / 60
    result := if 0 < pnl then "Profit" else "Loss"
    exchange := buy.exchange
    date := buy.date }

/-- Split a sell list at the first sell whose timestamp is strictly after `t`:
models `remaining_sells[remaining_sells['DateTimeObj'] > current_buy['DateTimeObj']]`
followed by `.iloc[0]`, keeping the surrounding rows. -/
def splitFirstAfter (t : ℚ) : List Exec → Option (List Exec × Exec × List Exec)
  | [] => none
  | s :: rest =>
    if t < s.time then some ([], s, rest)
    else
      match splitFirstAfter t rest with
      | none => none
      | some (pre, m, post) => some (s :: pre, m, post)

theorem splitFirstAfter_eq_some {t : ℚ} {l pre post : List Exec} {m : Exec}
    (h : splitFirstAfter t l = some (pre, m, post)) :
    l = pre ++ m :: post ∧ t < m.time := by
  induction l generalizing pre with
  | nil => simp [splitFirstAfter] at h
  | cons s rest ih =>
    simp only [splitFirstAfter] at h
    split at h
    · rename_i ht
      cases h
      exact ⟨rfl, ht⟩
    · rename_i ht
      cases hrec : splitFirstAfter t rest with
      | none => rw [hrec] at h; cases h
      | some triple =>
        obtain ⟨pre', m', post'⟩ := triple
        rw [hrec] at h
        cases h
        obtain ⟨hl, hm⟩ := ih hrec
        exact ⟨by rw [hl]; rfl, hm⟩

theorem splitFirstAfter_length {t : ℚ} {l pre post : List Exec} {m : Exec}
    (h : splitFirstAfter t l = some (pre, m, post)) :
    pre.length + post.length + 1 = l.length := by
  obtain ⟨hl, _⟩ := splitFirstAfter_eq_some h
  subst hl
  simp
  omega

/-- Embedding of the FIFO while-loop of `match_buy_sell_trades`
(`webull_realtime_log_parser.py` lines 529-580): earliest remaining buy is
matched against the earliest remaining sell strictly after it; quantities
are compared and partial legs carry their reduced quantity forward. -/
def fifoLoop : List Exec → List Exec → List TradePair
  | [], _ => []
  | _ :: _, [] => []
  | b :: bs, s₀ :: ss =>
    match hsp : splitFirstAfter b.time (s₀ :: ss) with
    | none => fifoLoop bs (s₀ :: ss)
    | some (pre, s, post) =>
      if b.quantity = s.quantity then
        create_trade_pair b s :: fifoLoop bs (pre ++ post)
      else if s.quantity < b.quantity then
        create_trade_pair { b with quantity := s.quantity } s ::
          fifoLoop ({ b with quantity := b.quantity - s.quantity } :: bs) (pre ++ post)
      else
        create_trade_pair b { s with quantity := b.quantity } ::
          fifoLoop bs (pre ++ ({ s with quantity := s.quantity - b.quantity } :: post))
termination_by buys sells => buys.length + sells.length
decreasing_by
  all_goals try (simp <;> omega)
  all_goals (have hlen := splitFirstAfter_length hsp; simp at hlen ⊢ <;> omega)

/-- Embedding of `match_buy_sell_trades` (`webull_realtime_log_parser.py`
lines 488-585): per-symbol partition, independent time sort of buys and
sells, then the FIFO loop. -/
def match_buy_sell_trades (trades : List Exec) : List TradePair :=
  if trades = [] then []
  else
    (uniqueFirst (trades.map (·.symbol))).flatMap fun sym =>
      let symbolTrades := trades.filter (fun t => t.symbol = sym)
      let buys := sortByKey Exec.time (symbolTrades.filter (fun t => toUpperStr t.side = "BUY"))
      let sells := sortByKey Exec.time (symbolTrades.filter (fun t => toUpperStr t.side = "SELL"))
      if buys = [] ∨ sells = [] then [] else fifoLoop buys sells

/-- Warning string built at `webull_realtime_log_parser.py` line 723. -/
def mkPositionWarning (sym : String) (q : ℚ) : String :=
  "OPEN POSITION: " ++ sym ++ " has " ++ toString q ++ " shares still open"

/-- Embedding of `calculate_clean_positions` (`webull_realtime_log_parser.py`
lines 665-737): per-symbol net quantity recomputed from the full trade list,
recorded (with one warning each) when its magnitude exceeds 0.01. Returns
the `open_positions` map and the `position_warnings` list. -/
def calculate_clean_positions (trades : List Exec) : List (String × ℚ) × List String :=
  if trades = [] then ([], [])
  else
    let sorted := sortByKey Exec.time trades
    let positions := (uniqueFirst (sorted.map (·.symbol))).filterMap fun sym =>
      let symbolTrades := sorted.filter (fun t => t.symbol = sym)
      let buy_qty := qsum ((symbolTrades.filter (fun t => toUpperStr t.side = "BUY")).map (·.quantity))
      let sell_qty := qsum ((symbolTrades.filter (fun t => toUpperStr t.side = "SELL")).map (·.quantity))
      let net := buy_qty - sell_qty
      if 1/100 < |net| then some (sym, net) else none
    (positions, positions.map fun sp => mkPositionWarning sp.1 sp.2)

/-- Specification-side signed residual for one symbol, written independently
of the pairing and grouping code: one left-to-right pass over the execution
list adding buy quantities and subtracting sell quantities. -/
def signedNet (trades : List Exec) (sym : String) : ℚ :=
  (trades.filter (fun t => t.symbol = sym)).foldl
    (fun acc t =>
      if toUpperStr t.side = "BUY" then acc + t.quantity
      else if toUpperStr t.side = "SELL" then acc - t.quantity else acc) 0

/-- Embedding of `truncate_to_minute` (`webull_realtime_common.py` lines
164-181, successful-parse path): zero the seconds, here flooring a rational
second count to a multiple of 60. -/
def truncate_to_minute (t : ℚ) : ℚ := 60 * ⌊t / 60⌋

/-- Modelled from the spec: `truncate_to_timeframe` is imported by
`webull_realtime_analytics.py` but absent from the provided sources; per the
spec (§4.4, timeframe-based strategy parametrized by a window size in
minutes) it truncates a timestamp to the start of its containing window. -/
def truncate_to_timeframe (timeframe_minutes : ℕ) (t : ℚ) : ℚ :=
  (60 * timeframe_minutes) * ⌊t / (60 * timeframe_minutes)⌋

/-- One value of the `symbol_minute_pairs` / `symbol_timeframe_pairs` dicts
(`webull_realtime_analytics.py` lines 786-793 and 617-624); only the fields
the re-pricing loop reads. -/
structure GroupEntry where
  avg_buy_price : ℚ
  avg_sell_price : ℚ
  is_profit : Option Bool
deriving DecidableEq, Repr

/-- Sorted-ascending list of the distinct window keys of a pair list, as
`pandas.groupby` which sorts group keys. -/
def windowKeys (trunc : ℚ → ℚ) (timeOf : TradePair → ℚ) (ps : List TradePair) : List ℚ :=
  sortByKey id (uniqueFirst (ps.map fun p => trunc (timeOf p)))

/-- Volume-weighted average of `priceOf` over `ps`, weighted by quantity:
`(price * qty).sum() / qty.sum()`. -/
def vwapIn (priceOf : TradePair → ℚ) (ps : List TradePair) : ℚ :=
  qsum (ps.map fun p => priceOf p * p.quantity) / qsum (ps.map (·.quantity))

/-- The `buy_groups` dict (`webull_realtime_analytics.py` lines 754-761 and
585-592): per symbol (first-occurrence order) and per window (ascending),
the volume-weighted average buy price. -/
def buyGroups (trunc : ℚ → ℚ) (pairs : List TradePair) : List ((String × ℚ) × ℚ) :=
  (uniqueFirst (pairs.map (·.symbol))).flatMap fun sym =>
    let symPairs := pairs.filter (fun p => p.symbol = sym)
    (windowKeys trunc (·.buyTime) symPairs).map fun w =>
      ((sym, w), vwapIn (·.buyPrice) (symPairs.filter fun p => trunc p.buyTime = w))

/-- The `sell_groups` dict (`webull_realtime_analytics.py` lines 763-767 and
594-598). -/
def sellGroups (trunc : ℚ → ℚ) (pairs : List TradePair) : List ((String × ℚ) × ℚ) :=
  (uniqueFirst (pairs.map (·.symbol))).flatMap fun sym =>
    let symPairs := pairs.filter (fun p => p.symbol = sym)
    (windowKeys trunc (·.sellTime) symPairs).map fun w =>
      ((sym, w), vwapIn (·.sellPrice) (symPairs.filter fun p => trunc p.sellTime = w))

/-- The string key `f"{symbol}_{window}_{sell_window}"` of the re-pricing
dicts. -/
def keyString (sym : String) (w1 w2 : ℚ) : String :=
  sym ++ "_" ++ toString w1 ++ "_" ++ toString w2

/-- The `symbol_minute_pairs` / `symbol_timeframe_pairs` dict
(`webull_realtime_analytics.py` lines 769-793 and 600-624): for every buy
group and every sell window of the same symbol, the profitability of the
averaged pair; a zero average (falsy in the source) yields `none`. -/
def symbolWindowPairs (trunc : ℚ → ℚ) (pairs : List TradePair) : List (String × GroupEntry) :=
  let bg := buyGroups trunc pairs
  let sg := sellGroups trunc pairs
  bg.foldl
    (fun d bentry =>
      let sym := bentry.1.1
      let w := bentry.1.2
      let avgB := bentry.2
      let sellWindows := (sg.filter (fun e => e.1.1 = sym)).map (fun e => e.1.2)
      sellWindows.foldl
        (fun d' sw =>
          let avgS := (dlookup (sym, sw) sg).getD 0
          let isp := if avgS ≠ 0 ∧ avgB ≠ 0 then some (decide (avgB < avgS)) else none
          dinsert (keyString sym w sw) ⟨avgB, avgS, isp⟩ d')
        d)
    []

/-- Shared bottom half of `apply_minute_based_pricing` and
`apply_timeframe_based_pricing` (`webull_realtime_analytics.py` lines
796-806 and 627-637): look up each pair's own key and, when the entry's
`is_profit` is not `None`, overwrite only the `Result` field. -/
def repriceByWindow (trunc : ℚ → ℚ) (pairs : List TradePair) : List TradePair :=
  if pairs = [] then []
  else
    let swp := symbolWindowPairs trunc pairs
    pairs.map fun p =>
      match dlookup (keyString p.symbol (trunc p.buyTime) (trunc p.sellTime)) swp with
      | some entry =>
        match entry.is_profit with
        | some b => { p with result := if b then "Profit" else "Loss" }
        | none => p
      | none => p

/-- Embedding of `apply_minute_based_pricing` (`webull_realtime_analytics.py`
lines 726-819). -/
def apply_minute_based_pricing (pairs : List TradePair) : List TradePair :=
  repriceByWindow truncate_to_minute pairs

/-- Embedding of `apply_timeframe_based_pricing`
(`webull_realtime_analytics.py` lines 550-650). -/
def apply_timeframe_based_pricing (pairs : List TradePair) (timeframe_minutes : ℕ) :
    List TradePair :=
  repriceByWindow (truncate_to_timeframe timeframe_minutes) pairs

/-- Embedding of `apply_symbol_based_pricing` (`webull_realtime_analytics.py`
lines 652-724): whole-symbol volume-weighted averages decide the `Result`
classification; nothing else is touched. -/
def apply_symbol_based_pricing (pairs : List TradePair) : List TradePair :=
  if pairs = [] then []
  else
    let groups : List (String × (ℚ × ℚ)) :=
      (uniqueFirst (pairs.map (·.symbol))).map fun sym =>
        let symPairs := pairs.filter (fun p => p.symbol = sym)
        let totQ := qsum (symPairs.map (·.quantity))
        let avgB := if 0 < totQ then qsum (symPairs.map fun p => p.buyPrice * p.quantity) / totQ else 0
        let avgS := if 0 < totQ then qsum (symPairs.map fun p => p.sellPrice * p.quantity) / totQ else 0
        (sym, (avgB, avgS))
    pairs.map fun p =>
      match dlookup p.symbol groups with
      | some g => { p with result := if g.1 < g.2 then "Profit" else "Loss" }
      | none => p

/-- Pointwise relation between an output pair and its input pair: every
field except `result` is unchanged. -/
def sameExceptResult (p q : TradePair) : Prop :=
  p.symbol = q.symbol ∧ p.quantity = q.quantity ∧ p.buyPrice = q.buyPrice ∧
  p.sellPrice = q.sellPrice ∧ p.buyTime = q.buyTime ∧ p.sellTime = q.sellTime ∧
  p.buyOrderId = q.buyOrderId ∧ p.sellOrderId = q.sellOrderId ∧ p.buyCost = q.buyCost ∧
  p.sellProceeds = q.sellProceeds ∧ p.buyCommission = q.buyCommission ∧
  p.sellCommission = q.sellCommission ∧ p.pnl = q.pnl ∧ p.pnlPercent = q.pnlPercent ∧
  p.totalCost = q.totalCost ∧ p.durationMinutes = q.durationMinutes ∧
  p.exchange = q.exchange ∧ p.date = q.date

instance (p q : TradePair) : Decidable (sameExceptResult p q) := by
  unfold sameExceptResult; infer_instance

/-- Arithmetic mean, `Series.mean()` (callers guard against empty input). -/
def mean (xs : List ℚ) : ℚ := qsum xs / xs.length

/-- Sample variance with one delta degree of freedom, the square of
`Series.std()`. -/
def sampleVar (xs : List ℚ) : ℚ :=
  qsum (xs.map fun x => (x - mean xs) ^ 2) / ((xs.length : ℚ) - 1)

/-- Result of `Series.std()`: `none` models the `NaN` produced on fewer than
two samples; otherwise the given square-root function applied to the sample
variance. -/
def stdOpt (sqrtFn : ℚ → ℚ) (xs : List ℚ) : Option ℚ :=
  if 2 ≤ xs.length then some (sqrtFn (sampleVar xs)) else none

/-- Maximum of a list, `Series.max()` (callers guard against empty input). -/
def qmax : List ℚ → ℚ
  | [] => 0
  | x :: xs => xs.foldl max x

/-- Minimum of a list, `Series.min()` (callers guard against empty input). -/
def qmin : List ℚ → ℚ
  | [] => 0
  | x :: xs => xs.foldl min x

/-- Cumulative sums starting from `acc`, `Series.cumsum()`. -/
def cumsumFrom (acc : ℚ) : List ℚ → List ℚ
  | [] => []
  | x :: xs => (acc + x) :: cumsumFrom (acc + x) xs

/-- Running maxima with seed `m`. -/
def runningMaxFrom (m : ℚ) : List ℚ → List ℚ
  | [] => []
  | x :: xs => max m x :: runningMaxFrom (max m x) xs

/-- Running maximum of a list, `Series.cummax()`. -/
def runningMax : List ℚ → List ℚ
  | [] => []
  | x :: xs => runningMaxFrom x (x :: xs)

/-- Inner loop of the consecutive-streak tracking
(`webull_realtime_analytics.py` lines 504-517), carried state
`(prev, current_streak, current_profit, current_loss, max_profit, max_loss)`. -/
def streakLoop (prev : String) (currentStreak cp cl mp ml : ℕ) :
    List String → ℕ × ℕ × ℕ × ℕ
  | [] => (cp, cl, mp, ml)
  | r :: rest =>
    let cs := if r = prev then currentStreak + 1 else 1
    if r = "Profit" then streakLoop r cs cs 0 (max mp cs) ml rest
    else streakLoop r cs 0 cs mp (max ml cs) rest

/-- Embedding of the consecutive-streak tracking of
`calculate_advanced_metrics` (`webull_realtime_analytics.py` lines 489-527)
on a non-empty result sequence: returns `(consecutive_profits,
consecutive_losses, max_consecutive_profits, max_consecutive_losses)`.
Note the maxima start at 0 and are only updated from the second element on. -/
def streaks : List String → ℕ × ℕ × ℕ × ℕ
  | [] => (0, 0, 0, 0)
  | r0 :: rest =>
    if r0 = "Profit" then streakLoop r0 1 1 0 0 0 rest
    else streakLoop r0 1 0 1 0 0 rest

/-- Configuration values consumed by the analytics engine. -/
structure Config where
  use_average_pricing : Bool
  timeframe_minutes : ℕ
deriving DecidableEq, Repr

/-- The metrics snapshot returned by `get_metrics_dict`
(`webull_realtime_analytics.py` lines 847-877). `none` in `profit_factor`
and `profit_loss_ratio` models the source's `float('inf')` sentinel; `none`
in `standard_deviation` models `NaN`. -/
structure Metrics where
  day_pnl : ℚ
  total_trades : ℕ
  profit_trades : ℕ
  losing_trades : ℕ
  profit_rate : ℚ
  avg_profit : ℚ
  avg_loss : ℚ
  profit_factor : Option ℚ
  sharpe_ratio : ℚ
  sortino_ratio : ℚ
  max_drawdown : ℚ
  max_drawdown_pct : ℚ
  avg_trade_duration : ℚ
  expectancy : ℚ
  consecutive_profits : ℕ
  consecutive_losses : ℕ
  max_consecutive_profits : ℕ
  max_consecutive_losses : ℕ
  largest_profit : ℚ
  largest_loss : ℚ
  profit_loss_ratio : Option ℚ
  standard_deviation : Option ℚ
deriving DecidableEq, Repr

/-- The zero/default snapshot set by `reset_metrics`
(`webull_realtime_analytics.py` lines 821-845). -/
def resetMetrics : Metrics :=
  { day_pnl := 0, total_trades := 0, profit_trades := 0, losing_trades := 0,
    profit_rate := 0, avg_profit := 0, avg_loss := 0, profit_factor := some 0,
    sharpe_ratio := 0, sortino_ratio := 0, max_drawdown := 0, max_drawdown_pct := 0,
    avg_trade_duration := 0, expectancy := 0, consecutive_profits := 0,
    consecutive_losses := 0, max_consecutive_profits := 0, max_consecutive_losses := 0,
    largest_profit := 0, largest_loss := 0, profit_loss_ratio := some 0,
    standard_deviation := some 0 }

/-- The pricing-strategy dispatch at the top of `calculate_advanced_metrics`
(`webull_realtime_analytics.py` lines 408-415): minute-based pricing when the
configured timeframe is at most one minute, otherwise timeframe-based; no
re-pricing when averaging is disabled or no configuration is set. -/
def applyConfiguredPricing (config : Option Config) (trade_pairs : List TradePair) :
    List TradePair :=
  match config with
  | some c =>
    if c.use_average_pricing then
      if c.timeframe_minutes ≤ 1 then apply_minute_based_pricing trade_pairs
      else apply_timeframe_based_pricing trade_pairs c.timeframe_minutes
    else trade_pairs
  | none => trade_pairs

/-- Embedding of `calculate_advanced_metrics` (`webull_realtime_analytics.py`
lines 393-540). `sqrtFn` abstracts `numpy`'s irrational square root, used
only inside the standard-deviation values; no settled claim depends on its
choice. In `max_drawdown_pct`, a zero running maximum makes the source
produce a `NaN`/`inf` entry; the rational division-by-zero convention
(result 0) is used here and no claim reads this field. -/
def calculate_advanced_metrics (sqrtFn : ℚ → ℚ) (config : Option Config)
    (trade_pairs : List TradePair) : Metrics :=
  if trade_pairs = [] then resetMetrics
  else
    let pairs := applyConfiguredPricing config trade_pairs
    let profitTrades := pairs.filter fun p => 0 < p.pnl
    let lossTrades := pairs.filter fun p => p.pnl < 0
    let numProfit : ℕ := profitTrades.length
    let total : ℕ := pairs.length
    let profitRate : ℚ := if 0 < total then ((numProfit : ℚ) / (total : ℚ)) * 100 else 0
    let avgProfit := if profitTrades ≠ [] then mean (profitTrades.map (·.pnl)) else 0
    let avgLoss := if lossTrades ≠ [] then mean (lossTrades.map (·.pnl)) else 0
    let totalProfit := if profitTrades ≠ [] then qsum (profitTrades.map (·.pnl)) else 0
    let totalLoss := if lossTrades ≠ [] then |qsum (lossTrades.map (·.pnl))| else 0
    let profitFactor : Option ℚ :=
      if 0 < totalLoss then some (totalProfit / totalLoss)
      else if 0 < totalProfit then none else some 0
    let returns := pairs.map fun p => p.pnlPercent / 100
    let sharpe :=
      match stdOpt sqrtFn returns with
      | some s => if 0 < s then mean returns / s else 0
      | none => 0
    let negativeReturns := returns.filter fun r => r < 0
    let downside :=
      if negativeReturns ≠ [] ∧ 1 < negativeReturns.length
      then sqrtFn (sampleVar negativeReturns) else 1 / 10000
    let sortino := if 0 < downside then mean returns / downside else 0
    let sorted := sortByKey TradePair.sellTime pairs
    let cum := cumsumFrom 0 (sorted.map (·.pnl))
    let runMax := runningMax cum
    let drawdown := List.zipWith (· - ·) runMax cum
    let maxDrawdownPct :=
      if 0 < qmax runMax then qmax (List.zipWith (fun dd rm => dd / rm * 100) drawdown runMax)
      else 0
    let profitRateQ := profitRate
    let st := streaks (sorted.map (·.result))
    let plRatio : Option ℚ :=
      if avgLoss ≠ 0 then some |avgProfit / avgLoss|
      else if 0 < avgProfit then none else some 0
    { day_pnl := totalProfit - totalLoss
      total_trades := total
      profit_trades := numProfit
      losing_trades := lossTrades.length
      profit_rate := profitRate
      avg_profit := avgProfit
      avg_loss := avgLoss
      profit_factor := profitFactor
      sharpe_ratio := sharpe
      sortino_ratio := sortino
      max_drawdown := qmax drawdown
      max_drawdown_pct := maxDrawdownPct
      avg_trade_duration := mean (pairs.map (·.durationMinutes))
      expectancy := avgProfit * profitRateQ / 100 + avgLoss * (1 - profitRateQ / 100)
      consecutive_profits := st.1
      consecutive_losses := st.2.1
      max_consecutive_profits := st.2.2.1
      max_consecutive_losses := st.2.2.2
      largest_profit := if profitTrades ≠ [] then qmax (profitTrades.map (·.pnl)) else 0
      largest_loss := if lossTrades ≠ [] then qmin (lossTrades.map (·.pnl)) else 0
      profit_loss_ratio := plRatio
      standard_deviation := stdOpt sqrtFn (pairs.map (·.pnl)) }

/-- One raw order record of the ingestion loop; `id` is the field the
dedup check reads, `payload` stands for the remaining order fields. -/
structure OrderRec where
  id : String
  payload : String
deriving DecidableEq, Repr

/-- Embedding of the per-order dedup-and-emit loop of
`extract_trades_from_logs` (`webull_realtime_log_parser.py` lines 241-253),
parametrized by `pt`, the `process_trade` normalizer (whose behaviour the
dedup mechanism does not depend on): an order whose id is in the seen-set is
dropped; otherwise `pt` runs and, only on success, the trade is emitted and
the id added to the seen-set. Returns the emitted trades and the final
seen-set. -/
def extract_orders_loop (pt : OrderRec → Option Exec) (seen : List String) :
    List OrderRec → List Exec × List String
  | [] => ([], seen)
  | o :: rest =>
    if o.id ∈ seen then extract_orders_loop pt seen rest
    else
      match pt o with
      | some t =>
        let r := extract_orders_loop pt (o.id :: seen) rest
        (t :: r.1, r.2)
      | none => extract_orders_loop pt seen rest

/-- C3's buy execution: Buy 100@10 at T0. -/
def c3Buy : Exec :=
  { symbol := "ABC", side := "BUY", quantity := 100, price := 10, commission := 0,
    time := 0, orderId := "b1", exchange := "", date := "d1" }

/-- C3's first sell execution: Sell 60@12 at T1. -/
def c3Sell1 : Exec :=
  { symbol := "ABC", side := "SELL", quantity := 60, price := 12, commission := 0,
    time := 60, orderId := "s1", exchange := "", date := "d1" }

/-- C3's second sell execution: Sell 40@11 at T2. -/
def c3Sell2 : Exec :=
  { symbol := "ABC", side := "SELL", quantity := 40, price := 11, commission := 0,
    time := 120, orderId := "s2", exchange := "", date := "d1" }

/-- C3's concrete input: Buy 100@10 at T0, Sell 60@12 at T1, Sell 40@11 at
T2 (T0 < T1 < T2), zero commissions, one symbol. -/
def c3Trades : List Exec := [c3Buy, c3Sell1, c3Sell2]

/-- A single concrete buy execution used by witnesses. -/
def wBuy : Exec :=
  { symbol := "XYZ", side := "BUY", quantity := 5, price := 10, commission := 1,
    time := 0, orderId := "wb", exchange := "N", date := "d2" }

/-- A single concrete sell execution used by witnesses. -/
def wSell : Exec :=
  { symbol := "XYZ", side := "SELL", quantity := 5, price := 12, commission := 1,
    time := 60, orderId := "ws", exchange := "N", date := "d2" }

/-- A two-execution round trip used by witnesses. -/
def wTrades : List Exec := [wBuy, wSell]

/-- C5's witness input: one unmatched buy of 3 shares. -/
def c5Trades : List Exec :=
  [ { symbol := "QQQ", side := "BUY", quantity := 3, price := 7, commission := 0,
      time := 0, orderId := "q1", exchange := "", date := "d3" } ]

/-- C1's counterexample input: two pairs of one symbol whose buy legs fall
in the same minute at different prices (10 and 20, quantity 1 each), so the
minute group's volume-weighted average buy price is 15. -/
def c1Pairs : List TradePair :=
  [ create_trade_pair
      { symbol := "AAA", side := "BUY", quantity := 1, price := 10, commission := 0,
        time := 0, orderId := "a1", exchange := "", date := "d4" }
      { symbol := "AAA", side := "SELL", quantity := 1, price := 11, commission := 0,
        time := 30, orderId := "a2", exchange := "", date := "d4" },
    create_trade_pair
      { symbol := "AAA", side := "BUY", quantity := 1, price := 20, commission := 0,
        time := 10, orderId := "a3", exchange := "", date := "d4" }
      { symbol := "AAA", side := "SELL", quantity := 1, price := 11, commission := 0,
        time := 40, orderId := "a4", exchange := "", date := "d4" } ]

/-- Volume-weighted average buy price of a symbol's minute group, stated
following the spec's words (§4.4, minute-based strategy): the buy legs of
all pairs of `sym` whose buy time falls in `minute`, averaged with quantity
weights. Used to compare the claimed output prices with the code's. -/
def minuteGroupBuyVWAP (pairs : List TradePair) (sym : String) (minute : ℚ) : ℚ :=
  vwapIn (·.buyPrice)
    (pairs.filter fun p => p.symbol = sym ∧ truncate_to_minute p.buyTime = minute)

/-- C9's failing input: one profitable round trip, whose pair has
`Result = "Profit"`. -/
def c9Pair : TradePair :=
  create_trade_pair
    { symbol := "BBB", side := "BUY", quantity := 2, price := 5, commission := 0,
      time := 0, orderId := "c1", exchange := "", date := "d5" }
    { symbol := "BBB", side := "SELL", quantity := 2, price := 6, commission := 0,
      time := 60, orderId := "c2", exchange := "", date := "d5" }

/-- C10's witness: a break-even round trip (equal prices, no commissions). -/
def evenBuy : Exec :=
  { symbol := "CCC", side := "BUY", quantity := 4, price := 9, commission := 0,
    time := 0, orderId := "e1", exchange := "", date := "d6" }

/-- C10's witness sell leg. -/
def evenSell : Exec :=
  { symbol := "CCC", side := "SELL", quantity := 4, price := 9, commission := 0,
    time := 60, orderId := "e2", exchange := "", date := "d6" }

/-- A concrete normalizer for the C6 witness: accepts every order and tags
the emitted execution with the order's id. -/
def c6pt (o : OrderRec) : Option Exec :=
  some { symbol := "S", side := "BUY", quantity := 1, price := 1, commission := 0,
         time := 0, orderId := o.id, exchange := "", date := "d7" }

/-- C6's witness input: the same order id appearing twice. -/
def c6Orders : List OrderRec := [⟨"o1", "p"⟩, ⟨"o1", "q"⟩]

theorem foldl_add_shift (xs : List ℚ) (a : ℚ) :
    xs.foldl (· + ·) a = a + xs.foldl (· + ·) 0 := by
  induction xs generalizing a with
  | nil => simp
  | cons x xs ih =>
    simp only [List.foldl_cons]
    rw [ih (a + x), ih (0 + x)]
    ring

theorem qsum_cons (x : ℚ) (xs : List ℚ) : qsum (x :: xs) = x + qsum xs := by
  simp only [qsum, List.foldl_cons]
  rw [foldl_add_shift]
  ring

theorem qsum_eq_sum (xs : List ℚ) : qsum xs = xs.sum := by
  induction xs with
  | nil => rfl
  | cons x xs ih => rw [qsum_cons, List.sum_cons, ih]

theorem qsum_perm {xs ys : List ℚ} (h : xs.Perm ys) : qsum xs = qsum ys := by
  rw [qsum_eq_sum, qsum_eq_sum]
  exact h.sum_eq

theorem mem_foldl_unique {α : Type} [DecidableEq α] (a : α) (l acc : List α) :
    a ∈ l.foldl (fun acc' x => if x ∈ acc' then acc' else acc' ++ [x]) acc ↔
      a ∈ acc ∨ a ∈ l := by
  induction l generalizing acc with
  | nil => simp
  | cons x xs ih =>
    simp only [List.foldl_cons]
    rw [ih]
    by_cases hx : x ∈ acc
    · simp only [if_pos hx, List.mem_cons]
      constructor
      · rintro (h | h)
        · exact Or.inl h
        · exact Or.inr (Or.inr h)
      · rintro (h | h | h)
        · exact Or.inl h
        · exact Or.inl (h ▸ hx)
        · exact Or.inr h
    · simp only [if_neg hx, List.mem_append, List.mem_singleton, List.mem_cons]
      tauto

theorem mem_uniqueFirst {α : Type} [DecidableEq α] (a : α) (l : List α) :
    a ∈ uniqueFirst l ↔ a ∈ l := by
  unfold uniqueFirst
  rw [mem_foldl_unique]
  simp

theorem insertByKey_perm {α : Type} (key : α → ℚ) (e : α) (l : List α) :
    (insertByKey key e l).Perm (e :: l) := by
  induction l with
  | nil => exact List.Perm.refl _
  | cons x xs ih =>
    unfold insertByKey
    split
    · exact List.Perm.refl _
    · exact (ih.cons x).trans (List.Perm.swap e x xs)

theorem sortByKey_perm {α : Type} (key : α → ℚ) (l : List α) :
    (sortByKey key l).Perm l := by
  induction l with
  | nil => exact List.Perm.refl _
  | cons x xs ih =>
    unfold sortByKey
    exact (insertByKey_perm key x (sortByKey key xs)).trans (ih.cons x)

theorem signedNet_eq_sums (trades : List Exec) (sym : String) :
    signedNet trades sym =
      qsum (((trades.filter fun t => t.symbol = sym).filter
        fun t => toUpperStr t.side = "BUY").map (·.quantity)) -
      qsum (((trades.filter fun t => t.symbol = sym).filter
        fun t => toUpperStr t.side = "SELL").map (·.quantity)) := by
  unfold signedNet
  generalize (trades.filter fun t => t.symbol = sym) = l
  have key : ∀ (l : List Exec) (a : ℚ),
      l.foldl (fun acc t => if toUpperStr t.side = "BUY" then acc + t.quantity
        else if toUpperStr t.side = "SELL" then acc - t.quantity else acc) a =
      a + (qsum ((l.filter fun t => toUpperStr t.side = "BUY").map (·.quantity)) -
           qsum ((l.filter fun t => toUpperStr t.side = "SELL").map (·.quantity))) := by
    intro l
    induction l with
    | nil => intro a; simp [qsum]
    | cons t ts ih =>
      intro a
      simp only [List.foldl_cons]
      by_cases hb : toUpperStr t.side = "BUY"
      · have hs : ¬ toUpperStr t.side = "SELL" := by rw [hb]; decide
        rw [if_pos hb, ih]
        simp [List.filter_cons, hb, hs, qsum_cons]
        ring
      · rw [if_neg hb]
        by_cases hs : toUpperStr t.side = "SELL"
        · rw [if_pos hs, ih]
          simp [List.filter_cons, hb, hs, qsum_cons]
          ring
        · rw [if_neg hs, ih]
          simp [List.filter_cons, hb, hs]
  rw [key]
  ring

theorem toUpperStr_buy : toUpperStr "BUY" = "BUY" := by decide

theorem toUpperStr_sell : toUpperStr "SELL" = "SELL" := by decide

theorem fifoLoop_shape (buys sells : List Exec) :
    ∀ p ∈ fifoLoop buys sells,
      ∃ b s, p = create_trade_pair b s ∧ b.time < s.time ∧ b.quantity = s.quantity := by
  induction buys, sells using fifoLoop.induct with
  | case1 sells =>
    intro p hp
    rw [fifoLoop] at hp
    cases hp
  | case2 b bs =>
    intro p hp
    rw [fifoLoop] at hp
    cases hp
  | case3 b bs s₀ ss hsp ih =>
    intro p hp
    rw [fifoLoop, hsp] at hp
    exact ih p hp
  | case4 b bs s₀ ss pre s post hsp hq ih =>
    intro p hp
    rw [fifoLoop, hsp] at hp
    dsimp only at hp
    rw [if_pos hq] at hp
    rcases List.mem_cons.mp hp with h | h
    · exact ⟨b, s, h, (splitFirstAfter_eq_some hsp).2, hq⟩
    · exact ih p h
  | case5 b bs s₀ ss pre s post hsp hq hlt ih =>
    intro p hp
    rw [fifoLoop, hsp] at hp
    dsimp only at hp
    rw [if_neg hq, if_pos hlt] at hp
    rcases List.mem_cons.mp hp with h | h
    · exact ⟨{ b with quantity := s.quantity }, s, h,
        (splitFirstAfter_eq_some hsp).2, rfl⟩
    · exact ih p h
  | case6 b bs s₀ ss pre s post hsp hq hge ih =>
    intro p hp
    rw [fifoLoop, hsp] at hp
    dsimp only at hp
    rw [if_neg hq, if_neg hge] at hp
    rcases List.mem_cons.mp hp with h | h
    · exact ⟨b, { s with quantity := b.quantity }, h,
        (splitFirstAfter_eq_some hsp).2, rfl⟩
    · exact ih p h

theorem match_pairs_shape (trades : List Exec) :
    ∀ p ∈ match_buy_sell_trades trades,
      ∃ b s, p = create_trade_pair b s ∧ b.time < s.time ∧ b.quantity = s.quantity := by
  intro p hp
  unfold match_buy_sell_trades at hp
  split at hp
  · cases hp
  · rw [List.mem_flatMap] at hp
    obtain ⟨sym, _, hp⟩ := hp
    dsimp only at hp
    split at hp
    · cases hp
    · exact fifoLoop_shape _ _ p hp

theorem sameExceptResult_refl (p : TradePair) : sameExceptResult p p :=
  ⟨rfl, rfl, rfl, rfl, rfl, rfl, rfl, rfl, rfl, rfl, rfl, rfl, rfl, rfl, rfl, rfl, rfl, rfl⟩

theorem sameExceptResult_setResult (p : TradePair) (r : String) :
    sameExceptResult { p with result := r } p :=
  ⟨rfl, rfl, rfl, rfl, rfl, rfl, rfl, rfl, rfl, rfl, rfl, rfl, rfl, rfl, rfl, rfl, rfl, rfl⟩

theorem forall₂_map_self {f : TradePair → TradePair}
    (hf : ∀ p, sameExceptResult (f p) p) :
    ∀ l : List TradePair, List.Forall₂ sameExceptResult (l.map f) l := by
  intro l
  induction l with
  | nil => exact List.Forall₂.nil
  | cons x xs ih => exact List.Forall₂.cons (hf x) ih

theorem repriceByWindow_frame (trunc : ℚ → ℚ) (pairs : List TradePair) :
    List.Forall₂ sameExceptResult (repriceByWindow trunc pairs) pairs := by
  unfold repriceByWindow
  split
  · rename_i h
    rw [h]
    exact List.Forall₂.nil
  · apply forall₂_map_self
    intro p
    cases hdl : dlookup (keyString p.symbol (trunc p.buyTime) (trunc p.sellTime))
        (symbolWindowPairs trunc pairs) with
    | none => dsimp only; exact sameExceptResult_refl p
    | some entry =>
      dsimp only
      cases hip : entry.is_profit with
      | none => exact sameExceptResult_refl p
      | some b => exact sameExceptResult_setResult p _

theorem apply_symbol_based_pricing_frame (pairs : List TradePair) :
    List.Forall₂ sameExceptResult (apply_symbol_based_pricing pairs) pairs := by
  unfold apply_symbol_based_pricing
  split
  · rename_i h
    rw [h]
    exact List.Forall₂.nil
  · apply forall₂_map_self
    intro p
    cases hdl : dlookup p.symbol _ with
    | none => dsimp only; exact sameExceptResult_refl p
    | some g => dsimp only; exact sameExceptResult_setResult p _

theorem extract_orders_loop_invariant (pt : OrderRec → Option Exec)
    (hpt : ∀ o e, pt o = some e → e.orderId = o.id) :
    ∀ (orders : List OrderRec) (seen : List String),
      (∀ e ∈ (extract_orders_loop pt seen orders).1, e.orderId ∉ seen) ∧
      ((extract_orders_loop pt seen orders).1.map Exec.orderId).Nodup ∧
      (∀ x ∈ seen, x ∈ (extract_orders_loop pt seen orders).2) ∧
      (∀ o ∈ orders, (pt o).isSome → o.id ∈ (extract_orders_loop pt seen orders).2) := by
  intro orders
  induction orders with
  | nil =>
    intro seen
    simp [extract_orders_loop]
  | cons o rest ih =>
    intro seen
    by_cases hmem : o.id ∈ seen
    · have heq : extract_orders_loop pt seen (o :: rest) = extract_orders_loop pt seen rest := by
        conv_lhs => rw [extract_orders_loop]
        rw [if_pos hmem]
      rw [heq]
      obtain ⟨h1, h2, h3, h4⟩ := ih seen
      refine ⟨h1, h2, h3, ?_⟩
      intro o' ho' hsome
      rcases List.mem_cons.mp ho' with h | h
      · rw [h]
        exact h3 _ hmem
      · exact h4 o' h hsome
    · cases hpt_o : pt o with
      | none =>
        have heq : extract_orders_loop pt seen (o :: rest) = extract_orders_loop pt seen rest := by
          conv_lhs => rw [extract_orders_loop]
          rw [if_neg hmem, hpt_o]
        rw [heq]
        obtain ⟨h1, h2, h3, h4⟩ := ih seen
        refine ⟨h1, h2, h3, ?_⟩
        intro o' ho' hsome
        rcases List.mem_cons.mp ho' with h | h
        · rw [h, hpt_o] at hsome
          cases hsome
        · exact h4 o' h hsome
      | some e =>
        have heq : extract_orders_loop pt seen (o :: rest) =
            (e :: (extract_orders_loop pt (o.id :: seen) rest).1,
             (extract_orders_loop pt (o.id :: seen) rest).2) := by
          rw [extract_orders_loop, if_neg hmem, hpt_o]
        rw [heq]
        obtain ⟨h1, h2, h3, h4⟩ := ih (o.id :: seen)
        have heid : e.orderId = o.id := hpt o e hpt_o
        refine ⟨?_, ?_, ?_, ?_⟩
        · intro e' he'
          rcases List.mem_cons.mp he' with h | h
          · rw [h, heid]
            exact hmem
          · intro hc
            exact (h1 e' h) (List.mem_cons_of_mem _ hc)
        · simp only [List.map_cons, List.nodup_cons]
          refine ⟨?_, h2⟩
          intro hc
          rw [List.mem_map] at hc
          obtain ⟨e', he', heq'⟩ := hc
          exact (h1 e' he') (by rw [heq', heid]; exact List.mem_cons_self _ _)
        · intro x hx
          exact h3 x (List.mem_cons_of_mem _ hx)
        · intro o' ho' hsome
          rcases List.mem_cons.mp ho' with h | h
          · rw [h]
            exact h3 _ (List.mem_cons_self _ _)
          · exact h4 o' h hsome

theorem extract_orders_loop_stable (pt : OrderRec → Option Exec) :
    ∀ (orders : List OrderRec) (seen : List String),
      (∀ o ∈ orders, (pt o).isSome → o.id ∈ seen) →
      (extract_orders_loop pt seen orders).1 = [] := by
  intro orders
  induction orders with
  | nil =>
    intro seen _
    simp [extract_orders_loop]
  | cons o rest ih =>
    intro seen hall
    by_cases hmem : o.id ∈ seen
    · rw [extract_orders_loop, if_pos hmem]
      exact ih seen fun o' h => hall o' (List.mem_cons_of_mem _ h)
    · cases hpt_o : pt o with
      | none =>
        rw [extract_orders_loop, if_neg hmem, hpt_o]
        exact ih seen fun o' h => hall o' (List.mem_cons_of_mem _ h)
      | some e =>
        exact absurd (hall o (List.mem_cons_self _ _) (by rw [hpt_o]; rfl)) hmem

theorem forall₂_same_map_eq {γ : Type} (f : TradePair → γ)
    (hf : ∀ p q, sameExceptResult p q → f p = f q) :
    ∀ {l1 l2 : List TradePair}, List.Forall₂ sameExceptResult l1 l2 →
      l1.map f = l2.map f := by
  intro l1 l2 h
  induction h with
  | nil => rfl
  | cons h1 _ ih => simp only [List.map_cons, hf _ _ h1, ih]

theorem forall₂_same_singleton {l : List TradePair} {p : TradePair}
    (h : List.Forall₂ sameExceptResult l [p]) :
    ∃ p', l = [p'] ∧ sameExceptResult p' p := by
  cases h with
  | cons h1 h2 =>
    cases h2
    exact ⟨_, rfl, h1⟩

/-- C2: the timeframe-based and the symbol-based pricing strategies leave
every pair's `pnl`, `buyPrice`, `sellPrice`, `pnlPercent`, `totalCost` (and
every other field except `result`) unchanged, for every input list; only the
`Result` classification may be rewritten. -/
theorem c2_repricing_isolation (pairs : List TradePair) (timeframe_minutes : ℕ) :
    List.Forall₂ sameExceptResult (apply_timeframe_based_pricing pairs timeframe_minutes) pairs ∧
    List.Forall₂ sameExceptResult (apply_symbol_based_pricing pairs) pairs :=
  ⟨repriceByWindow_frame (truncate_to_timeframe timeframe_minutes) pairs,
   apply_symbol_based_pricing_frame pairs⟩

/-- C1 (amended): the minute-based pricing strategy also leaves every field
except `result` unchanged — it uses the per-symbol per-minute volume-weighted
averages only to re-derive the `Result` classification, never rewriting
`buyPrice`, `sellPrice`, `pnl`, `pnlPercent` or `totalCost`. -/
theorem c1_minute_pricing_amended (pairs : List TradePair) :
    List.Forall₂ sameExceptResult (apply_minute_based_pricing pairs) pairs :=
  repriceByWindow_frame truncate_to_minute pairs

/-- C1 (counterexample): on the non-empty input `c1Pairs`, whose two buy
legs share symbol "AAA" and minute 0 with volume-weighted average buy price
15, the minute-based strategy returns the original buy prices 10 and 20
(not the group average) and leaves `pnl`, `pnlPercent` and `totalCost`
unchanged — refuting the claim that it rewrites prices and recomputes the
dollar amounts. -/
theorem c1_minute_pricing_counterexample :
    c1Pairs ≠ [] ∧
    c1Pairs.map (fun p => (p.symbol, truncate_to_minute p.buyTime)) = [("AAA", 0), ("AAA", 0)] ∧
    minuteGroupBuyVWAP c1Pairs "AAA" 0 = 15 ∧
    (apply_minute_based_pricing c1Pairs).map TradePair.buyPrice = [10, 20] ∧
    (apply_minute_based_pricing c1Pairs).map TradePair.pnl = c1Pairs.map TradePair.pnl ∧
    (apply_minute_based_pricing c1Pairs).map TradePair.pnlPercent = c1Pairs.map TradePair.pnlPercent ∧
    (apply_minute_based_pricing c1Pairs).map TradePair.totalCost = c1Pairs.map TradePair.totalCost := by
  have hfr : List.Forall₂ sameExceptResult (apply_minute_based_pricing c1Pairs) c1Pairs :=
    repriceByWindow_frame truncate_to_minute c1Pairs
  have hbp : (apply_minute_based_pricing c1Pairs).map TradePair.buyPrice =
      c1Pairs.map TradePair.buyPrice :=
    forall₂_same_map_eq _ (fun p q h => h.2.2.1) hfr
  refine ⟨by simp [c1Pairs], ?_, ?_, ?_, ?_, ?_, ?_⟩
  · norm_num [c1Pairs, create_trade_pair, truncate_to_minute]
  · norm_num [minuteGroupBuyVWAP, vwapIn, c1Pairs, create_trade_pair, truncate_to_minute,
      qsum]
  · rw [hbp]
    norm_num [c1Pairs, create_trade_pair]
  · exact forall₂_same_map_eq _ (fun p q h => h.2.2.2.2.2.2.2.2.2.2.2.2.1) hfr
  · exact forall₂_same_map_eq _ (fun p q h => h.2.2.2.2.2.2.2.2.2.2.2.2.2.1) hfr
  · exact forall₂_same_map_eq _ (fun p q h => h.2.2.2.2.2.2.2.2.2.2.2.2.2.2.1) hfr

/-- C4: every TradePair emitted by the FIFO matcher has its sell timestamp
strictly after its buy timestamp, for every input list of executions. -/
theorem c4_ordering_contract (trades : List Exec) (p : TradePair)
    (hp : p ∈ match_buy_sell_trades trades) : p.buyTime < p.sellTime := by
  obtain ⟨b, s, rfl, hts, _⟩ := match_pairs_shape trades p hp
  simpa [create_trade_pair] using hts

theorem match_wTrades_eval :
    match_buy_sell_trades wTrades = [create_trade_pair wBuy wSell] := by
  have h2 : fifoLoop [wBuy] [wSell] = [create_trade_pair wBuy wSell] := by
    have h1 : splitFirstAfter wBuy.time [wSell] = some ([], wSell, []) := by decide
    rw [fifoLoop, h1]
    dsimp only
    rw [if_pos (by decide : wBuy.quantity = wSell.quantity)]
    rw [fifoLoop]
  rw [← h2]
  simp +decide [match_buy_sell_trades, wTrades, uniqueFirst, sortByKey, insertByKey,
    List.filter_cons, List.filter_nil]

theorem c4_ordering_contract_witness :
    (create_trade_pair wBuy wSell).buyTime < (create_trade_pair wBuy wSell).sellTime :=
  c4_ordering_contract wTrades (create_trade_pair wBuy wSell)
    (by rw [match_wTrades_eval]; exact List.mem_singleton.mpr rfl)

/-- C7: every TradePair constructed by the matcher satisfies
`pnl = (sellPrice * quantity - sellCommission) - (buyPrice * quantity + buyCommission)`
and `pnlPercent = pnl / (buyPrice * quantity + buyCommission) * 100` when
that total cost is positive, else 0. -/
theorem c7_pair_pnl_invariant (trades : List Exec) (p : TradePair)
    (hp : p ∈ match_buy_sell_trades trades) :
    p.pnl = (p.sellPrice * p.quantity - p.sellCommission) -
      (p.buyPrice * p.quantity + p.buyCommission) ∧
    p.pnlPercent =
      (if 0 < p.buyPrice * p.quantity + p.buyCommission then
        p.pnl / (p.buyPrice * p.quantity + p.buyCommission) * 100
      else 0) := by
  obtain ⟨b, s, rfl, _, hq⟩ := match_pairs_shape trades p hp
  constructor
  · simp only [create_trade_pair]
    rw [← hq]
    ring
  · simp only [create_trade_pair]
    rw [← hq, mul_comm b.price b.quantity]

theorem c7_pair_pnl_invariant_witness :
    (create_trade_pair wBuy wSell).pnl =
      ((create_trade_pair wBuy wSell).sellPrice * (create_trade_pair wBuy wSell).quantity -
        (create_trade_pair wBuy wSell).sellCommission) -
      ((create_trade_pair wBuy wSell).buyPrice * (create_trade_pair wBuy wSell).quantity +
        (create_trade_pair wBuy wSell).buyCommission) ∧
    (create_trade_pair wBuy wSell).pnlPercent =
      (if 0 < (create_trade_pair wBuy wSell).buyPrice * (create_trade_pair wBuy wSell).quantity +
          (create_trade_pair wBuy wSell).buyCommission then
        (create_trade_pair wBuy wSell).pnl /
          ((create_trade_pair wBuy wSell).buyPrice * (create_trade_pair wBuy wSell).quantity +
            (create_trade_pair wBuy wSell).buyCommission) * 100
      else 0) :=
  c7_pair_pnl_invariant wTrades (create_trade_pair wBuy wSell)
    (by rw [match_wTrades_eval]; exact List.mem_singleton.mpr rfl)

/-- C10: pair classification assigns `Result = "Profit"` exactly when the
computed pnl is strictly positive, so a pair with pnl exactly 0 is
classified `"Loss"`. -/
theorem c10_zero_pnl_is_loss (buy sell : Exec) :
    ((create_trade_pair buy sell).result = "Profit" ↔ 0 < (create_trade_pair buy sell).pnl) ∧
    ((create_trade_pair buy sell).pnl = 0 → (create_trade_pair buy sell).result = "Loss") := by
  simp only [create_trade_pair]
  constructor
  · split
    · rename_i h
      simpa using h
    · rename_i h
      simpa using h
  · intro h0
    rw [if_neg (by rw [h0] at *; simp_all)]

theorem c10_zero_pnl_is_loss_witness :
    (create_trade_pair evenBuy evenSell).pnl = 0 ∧
    (create_trade_pair evenBuy evenSell).result = "Loss" := by
  have h0 : (create_trade_pair evenBuy evenSell).pnl = 0 := by
    norm_num [create_trade_pair, evenBuy, evenSell]
  exact ⟨h0, (c10_zero_pnl_is_loss evenBuy evenSell).2 h0⟩

/-- C6: the ingestion loop is deduplicating and idempotent over order ids:
whatever the normalizer `pt` does (as long as it tags each emitted execution
with its order's id), each orderId contributes at most one execution to the
output — the emitted order ids are pairwise distinct — and re-processing the
same order list with the resulting seen-set emits nothing. -/
theorem c6_dedup_idempotent (pt : OrderRec → Option Exec)
    (hpt : ∀ o e, pt o = some e → e.orderId = o.id)
    (seen : List String) (orders : List OrderRec) :
    ((extract_orders_loop pt seen orders).1.map Exec.orderId).Nodup ∧
    (extract_orders_loop pt (extract_orders_loop pt seen orders).2 orders).1 = [] := by
  obtain ⟨_, h2, _, h4⟩ := extract_orders_loop_invariant pt hpt orders seen
  exact ⟨h2, extract_orders_loop_stable pt orders _ h4⟩

theorem c6_dedup_idempotent_witness :
    ((extract_orders_loop c6pt [] c6Orders).1.map Exec.orderId).Nodup ∧
    (extract_orders_loop c6pt (extract_orders_loop c6pt [] c6Orders).2 c6Orders).1 = [] :=
  c6_dedup_idempotent c6pt
    (fun o e h => by simp only [c6pt, Option.some.injEq] at h; rw [← h]) [] c6Orders

/-- C5: after a matching pass, each recorded open position equals the
signed residual (buy quantities minus sell quantities) of its symbol,
recomputed from the full execution list; a symbol is recorded exactly when
the residual's magnitude exceeds 0.01; and one warning string is produced
per recorded symbol. -/
theorem c5_open_positions (trades : List Exec) :
    (∀ sp ∈ (calculate_clean_positions trades).1,
        sp.2 = signedNet trades sp.1 ∧ 1 / 100 < |sp.2|) ∧
    (∀ sym ∈ trades.map (·.symbol), 1 / 100 < |signedNet trades sym| →
        (sym, signedNet trades sym) ∈ (calculate_clean_positions trades).1) ∧
    (calculate_clean_positions trades).2.length = (calculate_clean_positions trades).1.length := by
  by_cases htr : trades = []
  · subst htr
    refine ⟨?_, ?_, ?_⟩ <;> simp [calculate_clean_positions]
  · have hperm : (sortByKey Exec.time trades).Perm trades := sortByKey_perm _ _
    have hnet : ∀ sym : String,
        qsum ((((sortByKey Exec.time trades).filter fun t => t.symbol = sym).filter
          fun t => toUpperStr t.side = "BUY").map (·.quantity)) -
        qsum ((((sortByKey Exec.time trades).filter fun t => t.symbol = sym).filter
          fun t => toUpperStr t.side = "SELL").map (·.quantity)) = signedNet trades sym := by
      intro sym
      rw [signedNet_eq_sums]
      rw [qsum_perm (((hperm.filter _).filter _).map (·.quantity)),
          qsum_perm (((hperm.filter _).filter _).map (·.quantity))]
    refine ⟨?_, ?_, ?_⟩
    · intro sp hsp
      unfold calculate_clean_positions at hsp
      rw [if_neg htr] at hsp
      dsimp only at hsp
      rw [List.mem_filterMap] at hsp
      obtain ⟨sym, hsym, hf⟩ := hsp
      split at hf
      · rename_i hcond
        cases hf
        exact ⟨hnet sym, hcond⟩
      · cases hf
    · intro sym hsym hbig
      unfold calculate_clean_positions
      rw [if_neg htr]
      dsimp only
      rw [List.mem_filterMap]
      refine ⟨sym, ?_, ?_⟩
      · rw [mem_uniqueFirst]
        rw [List.mem_map] at hsym ⊢
        obtain ⟨t, ht, hts⟩ := hsym
        exact ⟨t, hperm.mem_iff.mpr ht, hts⟩
      · rw [hnet sym, if_pos hbig]
    · unfold calculate_clean_positions
      split <;> simp

theorem c5_open_positions_witness :
    (1 / 100 < |signedNet c5Trades "QQQ"|) ∧
    ("QQQ", signedNet c5Trades "QQQ") ∈ (calculate_clean_positions c5Trades).1 :=
  ⟨by norm_num [signedNet, c5Trades, toUpperStr_buy],
   (c5_open_positions c5Trades).2.1 "QQQ" (by simp [c5Trades])
     (by norm_num [signedNet, c5Trades, toUpperStr_buy])⟩

/-- C3: on the three-execution input (Buy 100@10 at T0, Sell 60@12 at T1,
Sell 40@11 at T2, T0 < T1 < T2, zero commissions) the FIFO matcher emits
exactly two pairs, (qty 60, buy 10, sell 12, pnl 120) and (qty 40, buy 10,
sell 11, pnl 40), and the symbol's residual open position is 0 — below the
0.01 epsilon, so nothing is recorded and no warning is produced. -/
theorem c3_fifo_example :
    (match_buy_sell_trades c3Trades).map (fun p => (p.quantity, p.buyPrice, p.sellPrice, p.pnl)) =
      [(60, 10, 12, 120), (40, 10, 11, 40)] ∧
    signedNet c3Trades "ABC" = 0 ∧
    (calculate_clean_positions c3Trades).1 = [] ∧
    (calculate_clean_positions c3Trades).2 = [] := by
  have hfifo : fifoLoop [c3Buy] [c3Sell1, c3Sell2] =
      [create_trade_pair { c3Buy with quantity := c3Sell1.quantity } c3Sell1,
       create_trade_pair { c3Buy with quantity := c3Buy.quantity - c3Sell1.quantity } c3Sell2] := by
    have h1 : splitFirstAfter c3Buy.time [c3Sell1, c3Sell2] = some ([], c3Sell1, [c3Sell2]) := by
      decide
    rw [fifoLoop, h1]
    dsimp only
    rw [if_neg (by decide : ¬ c3Buy.quantity = c3Sell1.quantity),
        if_pos (by decide : c3Sell1.quantity < c3Buy.quantity)]
    rw [List.nil_append]
    have h2 : splitFirstAfter
        ({ c3Buy with quantity := c3Buy.quantity - c3Sell1.quantity } : Exec).time [c3Sell2] =
        some ([], c3Sell2, []) := by
      norm_num [splitFirstAfter, c3Buy, c3Sell2]
    rw [fifoLoop, h2]
    dsimp only
    rw [if_pos (by norm_num [c3Buy, c3Sell1, c3Sell2] :
        ({ c3Buy with quantity := c3Buy.quantity - c3Sell1.quantity } : Exec).quantity =
          c3Sell2.quantity)]
    rw [List.nil_append, fifoLoop]
  have hmb : match_buy_sell_trades c3Trades = fifoLoop [c3Buy] [c3Sell1, c3Sell2] := by
    simp +decide [match_buy_sell_trades, c3Trades, uniqueFirst, sortByKey, insertByKey,
      List.filter_cons, List.filter_nil]
  refine ⟨?_, ?_, ?_, ?_⟩
  · rw [hmb, hfifo]
    norm_num [create_trade_pair, c3Buy, c3Sell1, c3Sell2]
  · simp [signedNet, c3Trades, c3Buy, c3Sell1, c3Sell2, toUpperStr_buy, toUpperStr_sell]
    norm_num
  · norm_num [calculate_clean_positions, c3Trades, c3Buy, c3Sell1, c3Sell2, sortByKey,
      insertByKey, uniqueFirst, toUpperStr_buy, toUpperStr_sell, List.filter_cons, qsum,
      List.filterMap_cons]
    try simp
    try norm_num
  · norm_num [calculate_clean_positions, c3Trades, c3Buy, c3Sell1, c3Sell2, sortByKey,
      insertByKey, uniqueFirst, toUpperStr_buy, toUpperStr_sell, List.filter_cons, qsum,
      List.filterMap_cons]
    try simp
    try norm_num

/-- C8: degenerate inputs never error: the empty trade-pair list resets and
returns the all-zero snapshot, and a single-pair list yields defined Sharpe
and Sortino values — Sharpe falls back to 0 because the standard deviation
of a single return is undefined, and Sortino divides the mean return by the
0.0001 floor (fewer than 2 negative returns exist) — for every
configuration and every choice of the square-root function. -/
theorem c8_degenerate_metrics (sqrtFn : ℚ → ℚ) (config : Option Config) (p : TradePair) :
    calculate_advanced_metrics sqrtFn config [] = resetMetrics ∧
    (calculate_advanced_metrics sqrtFn config [p]).sharpe_ratio = 0 ∧
    (calculate_advanced_metrics sqrtFn config [p]).sortino_ratio = p.pnlPercent / 100 * 10000 := by
  have hpairs : ∃ p', applyConfiguredPricing config [p] = [p'] ∧ sameExceptResult p' p := by
    match config with
    | none => exact ⟨p, rfl, sameExceptResult_refl p⟩
    | some c =>
      rw [applyConfiguredPricing]
      by_cases hu : c.use_average_pricing
      · rw [if_pos hu]
        by_cases htf : c.timeframe_minutes ≤ 1
        · rw [if_pos htf]
          exact forall₂_same_singleton (repriceByWindow_frame truncate_to_minute [p])
        · rw [if_neg htf]
          exact forall₂_same_singleton
            (repriceByWindow_frame (truncate_to_timeframe c.timeframe_minutes) [p])
      · rw [if_neg hu]
        exact ⟨p, rfl, sameExceptResult_refl p⟩
  obtain ⟨p', hp', hsame⟩ := hpairs
  have hpct : p'.pnlPercent = p.pnlPercent := hsame.2.2.2.2.2.2.2.2.2.2.2.2.2.1
  refine ⟨?_, ?_, ?_⟩
  · unfold calculate_advanced_metrics
    rw [if_pos rfl]
  · unfold calculate_advanced_metrics
    rw [if_neg (by simp : ¬ ([p] : List TradePair) = []), hp']
    dsimp only
    norm_num [stdOpt]
  · unfold calculate_advanced_metrics
    rw [if_neg (by simp : ¬ ([p] : List TradePair) = []), hp']
    dsimp only
    simp only [List.map_cons, List.map_nil, List.filter_cons, List.filter_nil, hpct]
    by_cases hneg : p.pnlPercent / 100 < 0
    · norm_num [hneg, mean, qsum]
      ring
    · norm_num [hneg, mean, qsum]
      ring

/-- C9 (code-bug evaluation): the streak loop updates the maximum counters
only from the second element on, so for the single profitable pair the
snapshot reports max_consecutive_profits = 0 while consecutive_profits = 1;
the claim (maximum equals the longest run, here 1) fails on this input. -/
theorem c9_streak_bug_eval :
    c9Pair.result = "Profit" ∧
    (calculate_advanced_metrics (fun q => q) none [c9Pair]).max_consecutive_profits = 0 ∧
    (calculate_advanced_metrics (fun q => q) none [c9Pair]).consecutive_profits = 1 := by
  have hres : c9Pair.result = "Profit" := by
    norm_num [c9Pair, create_trade_pair]
  refine ⟨hres, ?_, ?_⟩ <;>
  · unfold calculate_advanced_metrics
    rw [if_neg (by simp : ¬ ([c9Pair] : List TradePair) = [])]
    dsimp only
    simp [applyConfiguredPricing, sortByKey, insertByKey, hres, streaks, streakLoop]

end Webull
